import Mathlib

/-!
Verification of `src/add_country_grouping.py`.

The script processes a JSON document mapping AS numbers to AS records.
`group_peers_by_country` groups each record's `links` by their
`peer_country` field (defaulting to `"Unknown"`), sorts the groups by
descending size with Python's stable sort, and stores the result under
the `grouped_by_country` key of the record.  `generate_statistics`
aggregates the per-country counts over the whole document and extracts
the fifteen largest aggregates, again with a stable descending sort.

The embedding below models Python values as a JSON-like inductive type.
Python dictionaries are insertion-ordered association lists (`d[k] = v`
replaces in place when the key is present and appends otherwise), and
runtime failures (`AttributeError`, `TypeError`, `KeyError`) are modelled
with `Except`.  Python's `sorted(..., reverse=True)` is a stable sort by
descending key; it is embedded as a stable insertion sort, which computes
the same list.
-/

inductive Json where
  | null : Json
  | bool (b : Bool) : Json
  | num (n : Int) : Json
  | str (s : String) : Json
  | arr (elems : List Json) : Json
  | obj (fields : List (Json × Json)) : Json

mutual

def Json.decEq : (a b : Json) → Decidable (a = b)
  | .null, .null => isTrue rfl
  | .bool a, .bool b =>
    if h : a = b then isTrue (by rw [h]) else isFalse (by simp [h])
  | .num a, .num b =>
    if h : a = b then isTrue (by rw [h]) else isFalse (by simp [h])
  | .str a, .str b =>
    if h : a = b then isTrue (by rw [h]) else isFalse (by simp [h])
  | .arr xs, .arr ys =>
    match Json.decEqList xs ys with
    | isTrue h => isTrue (by rw [h])
    | isFalse h => isFalse (by simp [h])
  | .obj fs, .obj gs =>
    match Json.decEqFields fs gs with
    | isTrue h => isTrue (by rw [h])
    | isFalse h => isFalse (by simp [h])
  | .null, .bool _ => isFalse (by simp)
  | .null, .num _ => isFalse (by simp)
  | .null, .str _ => isFalse (by simp)
  | .null, .arr _ => isFalse (by simp)
  | .null, .obj _ => isFalse (by simp)
  | .bool _, .null => isFalse (by simp)
  | .bool _, .num _ => isFalse (by simp)
  | .bool _, .str _ => isFalse (by simp)
  | .bool _, .arr _ => isFalse (by simp)
  | .bool _, .obj _ => isFalse (by simp)
  | .num _, .null => isFalse (by simp)
  | .num _, .bool _ => isFalse (by simp)
  | .num _, .str _ => isFalse (by simp)
  | .num _, .arr _ => isFalse (by simp)
  | .num _, .obj _ => isFalse (by simp)
  | .str _, .null => isFalse (by simp)
  | .str _, .bool _ => isFalse (by simp)
  | .str _, .num _ => isFalse (by simp)
  | .str _, .arr _ => isFalse (by simp)
  | .str _, .obj _ => isFalse (by simp)
  | .arr _, .null => isFalse (by simp)
  | .arr _, .bool _ => isFalse (by simp)
  | .arr _, .num _ => isFalse (by simp)
  | .arr _, .str _ => isFalse (by simp)
  | .arr _, .obj _ => isFalse (by simp)
  | .obj _, .null => isFalse (by simp)
  | .obj _, .bool _ => isFalse (by simp)
  | .obj _, .num _ => isFalse (by simp)
  | .obj _, .str _ => isFalse (by simp)
  | .obj _, .arr _ => isFalse (by simp)

def Json.decEqList : (xs ys : List Json) → Decidable (xs = ys)
  | [], [] => isTrue rfl
  | [], _ :: _ => isFalse (by simp)
  | _ :: _, [] => isFalse (by simp)
  | x :: xs, y :: ys =>
    match Json.decEq x y with
    | isTrue h1 =>
      match Json.decEqList xs ys with
      | isTrue h2 => isTrue (by rw [h1, h2])
      | isFalse h2 => isFalse (by simp [h2])
    | isFalse h1 => isFalse (by simp [h1])

def Json.decEqFields : (fs gs : List (Json × Json)) → Decidable (fs = gs)
  | [], [] => isTrue rfl
  | [], _ :: _ => isFalse (by simp)
  | _ :: _, [] => isFalse (by simp)
  | (k1, v1) :: fs, (k2, v2) :: gs =>
    match Json.decEq k1 k2 with
    | isTrue h1 =>
      match Json.decEq v1 v2 with
      | isTrue h2 =>
        match Json.decEqFields fs gs with
        | isTrue h3 => isTrue (by rw [h1, h2, h3])
        | isFalse h3 => isFalse (by simp [h3])
      | isFalse h2 => isFalse (by simp [h2])
    | isFalse h1 => isFalse (by simp [h1])

end

instance : DecidableEq Json := Json.decEq

/-- The Python runtime errors that the script can raise while transforming
an in-memory document. -/
inductive PyError where
  | attributeError : PyError
  | typeError : PyError
  | keyError : PyError
deriving DecidableEq

instance {ε α : Type} [DecidableEq ε] [DecidableEq α] : DecidableEq (Except ε α) :=
  fun x y =>
  match x, y with
  | .ok a, .ok b => if h : a = b then isTrue (by rw [h]) else isFalse (by simp [h])
  | .error a, .error b => if h : a = b then isTrue (by rw [h]) else isFalse (by simp [h])
  | .ok _, .error _ => isFalse (by simp)
  | .error _, .ok _ => isFalse (by simp)

/-- Lookup in a Python dictionary modelled as an association list
(`d[k]` / `k in d`). -/
def alookup {β : Type} : List (Json × β) → Json → Option β
  | [], _ => none
  | (k, v) :: rest, key => if k = key then some v else alookup rest key

/-- Python's `d.get(key, default)`. -/
def getDefault (fs : List (Json × Json)) (key dflt : Json) : Json :=
  (alookup fs key).getD dflt

/-- Python's `d[key] = v`: replaces in place when the key is present,
appends otherwise (insertion order is preserved). -/
def dictSet : List (Json × Json) → Json → Json → List (Json × Json)
  | [], key, v => [(key, v)]
  | (k, w) :: rest, key, v =>
    if k = key then (k, v) :: rest else (k, w) :: dictSet rest key v

/-- Whether a value can be used as a Python dictionary key: JSON lists and
objects are unhashable, every scalar is hashable. -/
def Json.hashable : Json → Bool
  | .arr _ => false
  | .obj _ => false
  | _ => true

def linksK : Json := .str "links"
def gbcK : Json := .str "grouped_by_country"
def pcK : Json := .str "peer_country"
def countK : Json := .str "count"
def peersK : Json := .str "peers"
def unknownV : Json := .str "Unknown"

/-- Python's `for x in v`: lists yield their elements, strings their
one-character substrings, dictionaries their keys; scalars raise
`TypeError`. -/
def iterElems : Json → Except PyError (List Json)
  | .arr xs => .ok xs
  | .str s => .ok (s.toList.map fun c => .str (String.mk [c]))
  | .obj fs => .ok (fs.map Prod.fst)
  | _ => .error .typeError

/-- The grouping key of a link: `link.get('peer_country', 'Unknown')`.
(The non-object branch is never reached on a run that completes.) -/
def linkKeyJ : Json → Json
  | .obj lf => getDefault lf pcK unknownV
  | _ => unknownV

/-- `country_groups[peer_country].append(link)` on a `defaultdict(list)`:
a fresh key is appended at the end, an existing group grows in place. -/
def addToGroup : List (Json × List Json) → Json → Json → List (Json × List Json)
  | [], k, l => [(k, [l])]
  | (k2, ls) :: rest, k, l =>
    if k2 = k then (k2, ls ++ [l]) :: rest else (k2, ls) :: addToGroup rest k l

/-- The grouping loop of `group_peers_by_country` (lines 59–61): each link
must be a dictionary (`link.get`, else `AttributeError`) with a hashable
grouping key (else `TypeError`). -/
def groupLinks : List Json → List (Json × List Json) →
    Except PyError (List (Json × List Json))
  | [], acc => .ok acc
  | .obj lf :: rest, acc =>
    if (linkKeyJ (.obj lf)).hashable then
      groupLinks rest (addToGroup acc (linkKeyJ (.obj lf)) (.obj lf))
    else .error .typeError
  | _ :: _, _ => .error .attributeError

/-- Stable insertion into a descending run: `x` goes before the first
element whose key is not greater, so among equal keys earlier elements
stay first. -/
def insertDescBy {α β : Type} [LinearOrder β] (key : α → β) (x : α) :
    List α → List α
  | [] => [x]
  | y :: ys => if key x < key y then y :: insertDescBy key x ys else x :: y :: ys

/-- Python's `sorted(l, key, reverse=True)`: the stable sort by descending
key. -/
def sortDescBy {α β : Type} [LinearOrder β] (key : α → β) : List α → List α
  | [] => []
  | x :: xs => insertDescBy key x (sortDescBy key xs)

/-- The sort key of line 66: `len(x[1])`. -/
def groupCount (g : Json × List Json) : Nat := g.2.length

/-- Lines 73–76: the `{'count': len(peers), 'peers': peers}` dictionary of
one country group. -/
def mkEntry (peers : List Json) : Json :=
  .obj [(countK, .num peers.length), (peersK, .arr peers)]

/-- Lines 71–76: build the `grouped_by_country` dictionary from the sorted
group list. -/
def mkGrouped (gs : List (Json × List Json)) : Json :=
  .obj (gs.map fun g => (g.1, mkEntry g.2))

/-- The body of the per-AS loop of `group_peers_by_country` (lines 55–76),
acting on one AS record. -/
def processRecord : Json → Except PyError Json
  | .obj fields =>
    match iterElems (getDefault fields linksK (.arr [])) with
    | .error e => .error e
    | .ok xs =>
      match groupLinks xs [] with
      | .error e => .error e
      | .ok groups =>
        .ok (.obj (dictSet fields gbcK (mkGrouped (sortDescBy groupCount groups))))
  | _ => .error .attributeError

/-- `for asn, data in enriched_data.items(): ...` — each record is
transformed in order; the first raised error aborts the run. -/
def mapRecords : List (Json × Json) → Except PyError (List (Json × Json))
  | [] => .ok []
  | (k, v) :: rest =>
    match processRecord v with
    | .error e => .error e
    | .ok v' =>
      match mapRecords rest with
      | .error e => .error e
      | .ok rest' => .ok ((k, v') :: rest')

/-- `group_peers_by_country` (lines 18–79).  A non-dictionary argument
fails at `.items()` with `AttributeError`. -/
def group_peers_by_country : Json → Except PyError Json
  | .obj es =>
    match mapRecords es with
    | .error e => .error e
    | .ok es' => .ok (.obj es')
  | _ => .error .attributeError

/-- The values computed by `generate_statistics` (lines 82–98).
`total_countries` is the Python set of country names, represented by its
first-insertion-ordered support; `country_peer_counts` is the
`defaultdict(int)` of summed counts; `top_countries` the printed top-15
list. -/
structure Stats where
  total_ases : Nat
  total_countries : List Json
  country_peer_counts : List (Json × Int)
  top_countries : List (Json × Int)
deriving DecidableEq

/-- `total_countries.add(country)`: adding to a set, keeping the support
in first-insertion order. -/
def addCountry (seen : List Json) (c : Json) : List Json :=
  if c ∈ seen then seen else seen ++ [c]

/-- `country_peer_counts[country] += n` on a `defaultdict(int)`. -/
def addCount : List (Json × Int) → Json → Int → List (Json × Int)
  | [], c, n => [(c, n)]
  | (k, m) :: rest, c, n =>
    if k = c then (k, m + n) :: rest else (k, m) :: addCount rest c n

/-- The inner statistics loop (lines 90–92) over one record's
`grouped_by_country` items: each group must be a dictionary carrying a
numeric `count`. -/
def statsGroups : List (Json × Json) → List Json → List (Json × Int) →
    Except PyError (List Json × List (Json × Int))
  | [], seen, counts => .ok (seen, counts)
  | (c, g) :: rest, seen, counts =>
    match g with
    | .obj gf =>
      match alookup gf countK with
      | some (.num n) => statsGroups rest (addCountry seen c) (addCount counts c n)
      | some _ => .error .typeError
      | none => .error .keyError
    | _ => .error .typeError

/-- The outer statistics loop (line 89) over `enriched_data.values()`:
each record must be a dictionary, and its `grouped_by_country` value (an
empty dictionary when absent) must be a dictionary. -/
def statsRecords : List Json → List Json → List (Json × Int) →
    Except PyError (List Json × List (Json × Int))
  | [], seen, counts => .ok (seen, counts)
  | v :: rest, seen, counts =>
    match v with
    | .obj fields =>
      match getDefault fields gbcK (.obj []) with
      | .obj groups =>
        match statsGroups groups seen counts with
        | .ok (seen', counts') => statsRecords rest seen' counts'
        | .error e => .error e
      | _ => .error .attributeError
    | _ => .error .attributeError

/-- The sort key of line 96: `x[1]`. -/
def countVal (p : Json × Int) : Int := p.2

/-- `generate_statistics` (lines 82–98).  `len` of a scalar raises
`TypeError`, `.values()` of a list or string raises `AttributeError`. -/
def generate_statistics : Json → Except PyError Stats
  | .obj es =>
    match statsRecords (es.map Prod.snd) [] [] with
    | .ok (seen, counts) => .ok ⟨es.length, seen, counts, (sortDescBy countVal counts).take 15⟩
    | .error e => .error e
  | .arr _ => .error .attributeError
  | .str _ => .error .attributeError
  | _ => .error .typeError

/-! ### Properties of the stable descending sort -/

theorem insertDescBy_perm {α β : Type} [LinearOrder β] (key : α → β) (x : α) :
    (l : List α) → (insertDescBy key x l).Perm (x :: l)
  | [] => List.Perm.refl _
  | y :: ys => by
    rw [insertDescBy]
    split
    · exact ((insertDescBy_perm key x ys).cons y).trans (List.Perm.swap x y ys)
    · exact List.Perm.refl _

theorem sortDescBy_perm {α β : Type} [LinearOrder β] (key : α → β) :
    (l : List α) → (sortDescBy key l).Perm l
  | [] => List.Perm.refl _
  | x :: xs => (insertDescBy_perm key x _).trans ((sortDescBy_perm key xs).cons x)

theorem pairwise_insertDescBy {α β : Type} [LinearOrder β] (key : α → β) (x : α) :
    ∀ l : List α, l.Pairwise (fun a b => key b ≤ key a) →
      (insertDescBy key x l).Pairwise (fun a b => key b ≤ key a)
  | [], _ => by simp [insertDescBy]
  | y :: ys, h => by
    rw [insertDescBy]
    rcases List.pairwise_cons.mp h with ⟨hy, hys⟩
    split
    next hlt =>
      refine List.pairwise_cons.mpr ⟨?_, pairwise_insertDescBy key x ys hys⟩
      intro b hb
      rcases List.mem_cons.mp ((insertDescBy_perm key x ys).mem_iff.mp hb) with h1 | h1
      · exact h1 ▸ hlt.le
      · exact hy b h1
    next hge =>
      refine List.pairwise_cons.mpr ⟨?_, h⟩
      intro b hb
      rcases List.mem_cons.mp hb with rfl | hb
      · exact le_of_not_lt hge
      · exact (hy b hb).trans (le_of_not_lt hge)

theorem sortDescBy_pairwise {α β : Type} [LinearOrder β] (key : α → β) :
    (l : List α) → (sortDescBy key l).Pairwise (fun a b => key b ≤ key a)
  | [] => List.Pairwise.nil
  | x :: xs => pairwise_insertDescBy key x _ (sortDescBy_pairwise key xs)

theorem filter_insertDescBy {α β : Type} [LinearOrder β] (key : α → β) (p : α → Bool)
    (hp : ∀ a b, p a = true → p b = true → key a = key b) (x : α) :
    ∀ l : List α, (insertDescBy key x l).filter p =
      if p x = true then x :: l.filter p else l.filter p
  | [] => by simp [insertDescBy, List.filter_cons]
  | y :: ys => by
    rw [insertDescBy]
    split
    next hlt =>
      rw [List.filter_cons, List.filter_cons, filter_insertDescBy key p hp x ys]
      by_cases hpy : p y = true
      · by_cases hpx : p x = true
        · exact absurd (hp x y hpx hpy) (ne_of_lt hlt)
        · simp [hpy, hpx]
      · simp [hpy]
    next hge =>
      by_cases hpx : p x = true <;> simp [List.filter_cons, hpx]

theorem filter_sortDescBy {α β : Type} [LinearOrder β] (key : α → β) (p : α → Bool)
    (hp : ∀ a b, p a = true → p b = true → key a = key b) :
    ∀ l : List α, (sortDescBy key l).filter p = l.filter p
  | [] => rfl
  | x :: xs => by
    rw [sortDescBy, filter_insertDescBy key p hp, List.filter_cons,
      filter_sortDescBy key p hp xs]

/-! ### Dictionary lemmas -/

theorem alookup_dictSet_self (k v : Json) :
    ∀ fs : List (Json × Json), alookup (dictSet fs k v) k = some v
  | [] => by simp [dictSet, alookup]
  | (k2, w) :: rest => by
    rw [dictSet]
    by_cases h : k2 = k
    · simp [alookup, h]
    · simp [alookup, h, alookup_dictSet_self k v rest]

theorem alookup_dictSet_ne (k v k' : Json) (hne : k' ≠ k) :
    ∀ fs : List (Json × Json), alookup (dictSet fs k v) k' = alookup fs k'
  | [] => by simp [dictSet, alookup, Ne.symm hne]
  | (k2, w) :: rest => by
    by_cases h : k2 = k
    · subst h; simp [dictSet, alookup, Ne.symm hne]
    · by_cases h2 : k2 = k'
      · subst h2
        simp [dictSet, alookup, h]
      · simp [dictSet, alookup, h, h2, alookup_dictSet_ne k v k' hne rest]

theorem getDefault_dictSet_ne (fs : List (Json × Json)) (k v k' d : Json)
    (hne : k' ≠ k) : getDefault (dictSet fs k v) k' d = getDefault fs k' d := by
  rw [getDefault, getDefault, alookup_dictSet_ne k v k' hne]

theorem dictSet_dictSet_self (k v : Json) :
    ∀ fs : List (Json × Json), dictSet (dictSet fs k v) k v = dictSet fs k v
  | [] => by simp [dictSet]
  | (k2, w) :: rest => by
    rw [dictSet]
    by_cases h : k2 = k
    · simp [dictSet, h]
    · simp [dictSet, h, dictSet_dictSet_self k v rest]

/-- Erase every binding of a key (used to compare dictionaries up to one
key). -/
def removeKey (fs : List (Json × Json)) (k : Json) : List (Json × Json) :=
  fs.filter fun p => decide (p.1 ≠ k)

theorem removeKey_dictSet (k v : Json) :
    ∀ fs : List (Json × Json), removeKey (dictSet fs k v) k = removeKey fs k
  | [] => by simp [dictSet, removeKey]
  | (k2, w) :: rest => by
    by_cases h : k2 = k
    · subst h; simp [dictSet, removeKey, List.filter_cons]
    · have IH := removeKey_dictSet k v rest
      simp only [removeKey, List.filter_cons, decide_not] at IH ⊢
      simp [dictSet, h, IH]

theorem alookup_eq_none_iff {β : Type} (k : Json) :
    ∀ fs : List (Json × β), alookup fs k = none ↔ k ∉ fs.map Prod.fst
  | [] => by simp [alookup]
  | (k2, v) :: rest => by
    by_cases h : k2 = k
    · subst h; simp [alookup]
    · simp [alookup, h, alookup_eq_none_iff k rest, Ne.symm h]

theorem mem_of_alookup_eq_some {β : Type} (k : Json) (v : β) :
    ∀ fs : List (Json × β), alookup fs k = some v → (k, v) ∈ fs
  | [], h => by simp [alookup] at h
  | (k2, w) :: rest, h => by
    by_cases he : k2 = k
    · subst he
      simp [alookup] at h
      subst h; exact List.mem_cons_self _ _
    · simp only [alookup, if_neg he] at h
      exact List.mem_cons_of_mem _ (mem_of_alookup_eq_some k v rest h)

theorem alookup_eq_some_of_mem {β : Type} (k : Json) (v : β) :
    ∀ fs : List (Json × β), (fs.map Prod.fst).Nodup → (k, v) ∈ fs →
      alookup fs k = some v
  | [], _, hmem => absurd hmem (List.not_mem_nil _)
  | (k2, w) :: rest, hnd, hmem => by
    rcases List.mem_cons.mp hmem with heq | hmem2
    · rw [← heq]
      simp [alookup]
    · have hk2 : k2 ≠ k := by
        intro he
        subst he
        exact (List.nodup_cons.mp hnd).1
          (List.mem_map.mpr ⟨(k2, v), hmem2, rfl⟩)
      simp only [alookup, if_neg hk2]
      exact alookup_eq_some_of_mem k v rest (List.nodup_cons.mp hnd).2 hmem2

theorem alookup_perm {β : Type} (k : Json) {fs gs : List (Json × β)}
    (hnd : (fs.map Prod.fst).Nodup) (hp : fs.Perm gs) :
    alookup fs k = alookup gs k := by
  have hnd' : (gs.map Prod.fst).Nodup := ((hp.map Prod.fst).nodup_iff).mp hnd
  cases h : alookup fs k with
  | none =>
    symm
    rw [alookup_eq_none_iff] at h ⊢
    exact fun hmem => h (((hp.map Prod.fst).mem_iff).mpr hmem)
  | some v =>
    exact (alookup_eq_some_of_mem k v gs hnd'
      (hp.mem_iff.mp (mem_of_alookup_eq_some k v fs h))).symm

theorem alookup_map_pair {β γ : Type} (F : β → γ) (k : Json) :
    ∀ gs : List (Json × β),
      alookup (gs.map fun g => (g.1, F g.2)) k = (alookup gs k).map F
  | [] => rfl
  | (k2, v) :: rest => by
    by_cases h : k2 = k <;> simp [alookup, h, alookup_map_pair F k rest]

/-! ### Grouping lemmas -/

/-- The contents of one bucket of the `defaultdict`. -/
def contents (gs : List (Json × List Json)) (c : Json) : List Json :=
  (alookup gs c).getD []

theorem addToGroup_cons_self (k l : Json) (ls : List Json)
    (rest : List (Json × List Json)) :
    addToGroup ((k, ls) :: rest) k l = (k, ls ++ [l]) :: rest := by
  simp [addToGroup]

theorem contents_addToGroup (k l c : Json) :
    ∀ acc, contents (addToGroup acc k l) c =
      contents acc c ++ if c = k then [l] else []
  | [] => by
    by_cases h : c = k
    · subst h; simp [addToGroup, contents, alookup]
    · simp [addToGroup, contents, alookup, h, Ne.symm h]
  | (k2, ls) :: rest => by
    by_cases h : k2 = k
    · subst h
      by_cases hc : k2 = c
      · subst hc; simp [addToGroup, contents, alookup]
      · simp [addToGroup, contents, alookup, hc, Ne.symm hc]
    · by_cases hc : k2 = c
      · subst hc
        simp [addToGroup, contents, alookup, h]
      · have IH := contents_addToGroup k l c rest
        simp only [contents] at IH
        simp [addToGroup, contents, alookup, h, hc, IH]

theorem flatten_addToGroup (k l : Json) :
    ∀ acc, (((addToGroup acc k l).map Prod.snd).flatten).Perm
      ((acc.map Prod.snd).flatten ++ [l])
  | [] => by simp [addToGroup]
  | (k2, ls) :: rest => by
    by_cases h : k2 = k
    · subst h
      rw [addToGroup_cons_self]
      simp only [List.map_cons, List.flatten_cons]
      rw [List.append_assoc, List.append_assoc]
      exact List.Perm.append_left ls List.perm_append_comm
    · simp only [addToGroup, if_neg h, List.map_cons, List.flatten_cons]
      rw [List.append_assoc]
      exact List.Perm.append_left ls (flatten_addToGroup k l rest)

theorem map_fst_addToGroup (k l : Json) :
    ∀ acc, (addToGroup acc k l).map Prod.fst =
      if k ∈ acc.map Prod.fst then acc.map Prod.fst else acc.map Prod.fst ++ [k]
  | [] => by simp [addToGroup]
  | (k2, ls) :: rest => by
    by_cases h : k2 = k
    · subst h; simp [addToGroup]
    · simp only [addToGroup, if_neg h, List.map_cons, map_fst_addToGroup k l rest]
      have : (k ∈ k2 :: rest.map Prod.fst) ↔ k ∈ rest.map Prod.fst := by
        simp [Ne.symm h]
      by_cases hm : k ∈ rest.map Prod.fst
      · simp [hm, this]
      · simp [hm, this]

/-- The grouping keys of a link sequence in the order in which each key is
first encountered, skipping the keys already `seen`. -/
def newKeys (seen : List Json) : List Json → List Json
  | [] => []
  | l :: rest =>
    if linkKeyJ l ∈ seen then newKeys seen rest
    else linkKeyJ l :: newKeys (seen ++ [linkKeyJ l]) rest

theorem groupLinks_contents (c : Json) :
    ∀ (xs : List Json) (acc gs : List (Json × List Json)),
      groupLinks xs acc = Except.ok gs →
      contents gs c = contents acc c ++ xs.filter (fun l => decide (linkKeyJ l = c)) := by
  intro xs
  induction xs with
  | nil =>
    intro acc gs h
    simp only [groupLinks, Except.ok.injEq] at h
    subst h
    simp
  | cons l rest ih =>
    intro acc gs h
    cases l with
    | obj lf =>
      simp only [groupLinks] at h
      split at h
      · rw [ih _ _ h, contents_addToGroup, List.filter_cons]
        by_cases hk : linkKeyJ (Json.obj lf) = c
        · simp [hk]
        · simp [hk, Ne.symm hk]
      · exact absurd h (by simp)
    | null => simp [groupLinks] at h
    | bool b => simp [groupLinks] at h
    | num n => simp [groupLinks] at h
    | str s => simp [groupLinks] at h
    | arr ys => simp [groupLinks] at h

theorem groupLinks_flatten :
    ∀ (xs : List Json) (acc gs : List (Json × List Json)),
      groupLinks xs acc = Except.ok gs →
      ((gs.map Prod.snd).flatten).Perm ((acc.map Prod.snd).flatten ++ xs) := by
  intro xs
  induction xs with
  | nil =>
    intro acc gs h
    simp only [groupLinks, Except.ok.injEq] at h
    subst h
    simp
  | cons l rest ih =>
    intro acc gs h
    cases l with
    | obj lf =>
      simp only [groupLinks] at h
      split at h
      · refine (ih _ _ h).trans ?_
        have h1 := flatten_addToGroup (linkKeyJ (Json.obj lf)) (Json.obj lf) acc
        refine (h1.append_right rest).trans ?_
        rw [List.append_assoc]
        exact List.Perm.refl _
      · exact absurd h (by simp)
    | null => simp [groupLinks] at h
    | bool b => simp [groupLinks] at h
    | num n => simp [groupLinks] at h
    | str s => simp [groupLinks] at h
    | arr ys => simp [groupLinks] at h

theorem groupLinks_map_fst :
    ∀ (xs : List Json) (acc gs : List (Json × List Json)),
      groupLinks xs acc = Except.ok gs →
      gs.map Prod.fst = acc.map Prod.fst ++ newKeys (acc.map Prod.fst) xs := by
  intro xs
  induction xs with
  | nil =>
    intro acc gs h
    simp only [groupLinks, Except.ok.injEq] at h
    subst h
    simp [newKeys]
  | cons l rest ih =>
    intro acc gs h
    cases l with
    | obj lf =>
      simp only [groupLinks] at h
      split at h
      · rw [ih _ _ h, map_fst_addToGroup, newKeys]
        by_cases hm : linkKeyJ (Json.obj lf) ∈ acc.map Prod.fst
        · simp [hm]
        · simp [hm]
      · exact absurd h (by simp)
    | null => simp [groupLinks] at h
    | bool b => simp [groupLinks] at h
    | num n => simp [groupLinks] at h
    | str s => simp [groupLinks] at h
    | arr ys => simp [groupLinks] at h

theorem groupLinks_nodup :
    ∀ (xs : List Json) (acc gs : List (Json × List Json)),
      (acc.map Prod.fst).Nodup → groupLinks xs acc = Except.ok gs →
      (gs.map Prod.fst).Nodup := by
  intro xs
  induction xs with
  | nil =>
    intro acc gs hnd h
    simp only [groupLinks, Except.ok.injEq] at h
    subst h
    exact hnd
  | cons l rest ih =>
    intro acc gs hnd h
    cases l with
    | obj lf =>
      simp only [groupLinks] at h
      split at h
      · refine ih _ _ ?_ h
        rw [map_fst_addToGroup]
        by_cases hm : linkKeyJ (Json.obj lf) ∈ acc.map Prod.fst
        · simp [hm, hnd]
        · simp only [if_neg hm]
          refine List.Nodup.append hnd (List.nodup_singleton _) ?_
          intro a ha hb
          rw [List.mem_singleton] at hb
          exact hm (hb ▸ ha)
      · exact absurd h (by simp)
    | null => simp [groupLinks] at h
    | bool b => simp [groupLinks] at h
    | num n => simp [groupLinks] at h
    | str s => simp [groupLinks] at h
    | arr ys => simp [groupLinks] at h

/-! ### Reading back the produced structures -/

/-- The `peers` list stored in a country group of the output. -/
def entryPeers : Json → List Json
  | .obj gf =>
    match alookup gf peersK with
    | some (.arr ls) => ls
    | _ => []
  | _ => []

/-- The `count` value stored in a country group of the output. -/
def entryCount : Json → Int
  | .obj gf =>
    match alookup gf countK with
    | some (.num n) => n
    | _ => 0
  | _ => 0

theorem entryPeers_mkEntry (ls : List Json) : entryPeers (mkEntry ls) = ls := rfl

theorem entryCount_mkEntry (ls : List Json) :
    entryCount (mkEntry ls) = (ls.length : Int) := rfl

/-! ### Shape of a successful run -/

theorem processRecord_ok {v v' : Json} (h : processRecord v = Except.ok v') :
    ∃ fs xs gs, v = Json.obj fs ∧
      iterElems (getDefault fs linksK (Json.arr [])) = Except.ok xs ∧
      groupLinks xs [] = Except.ok gs ∧
      v' = Json.obj (dictSet fs gbcK (mkGrouped (sortDescBy groupCount gs))) := by
  cases v with
  | obj fs =>
    simp only [processRecord] at h
    split at h
    next e heq => exact absurd h (by simp)
    next xs heq =>
      split at h
      next e heq2 => exact absurd h (by simp)
      next gs heq2 =>
        simp only [Except.ok.injEq] at h
        exact ⟨fs, xs, gs, rfl, heq, heq2, h.symm⟩
  | null => simp [processRecord] at h
  | bool b => simp [processRecord] at h
  | num n => simp [processRecord] at h
  | str s => simp [processRecord] at h
  | arr ys => simp [processRecord] at h

theorem mapRecords_ok :
    ∀ {es es' : List (Json × Json)}, mapRecords es = Except.ok es' →
      List.Forall₂ (fun p q => p.1 = q.1 ∧ processRecord p.2 = Except.ok q.2) es es' := by
  intro es
  induction es with
  | nil =>
    intro es' h
    simp only [mapRecords, Except.ok.injEq] at h
    subst h
    exact List.Forall₂.nil
  | cons p rest ih =>
    intro es' h
    obtain ⟨k, v⟩ := p
    simp only [mapRecords] at h
    split at h
    next e heq => exact absurd h (by simp)
    next v' heq =>
      split at h
      next e heq2 => exact absurd h (by simp)
      next rest' heq2 =>
        simp only [Except.ok.injEq] at h
        subst h
        exact List.Forall₂.cons ⟨rfl, heq⟩ (ih heq2)

theorem group_peers_ok {d d' : Json} (h : group_peers_by_country d = Except.ok d') :
    ∃ es es', d = Json.obj es ∧ d' = Json.obj es' ∧ mapRecords es = Except.ok es' := by
  cases d with
  | obj es =>
    simp only [group_peers_by_country] at h
    split at h
    next e heq => exact absurd h (by simp)
    next es' heq =>
      simp only [Except.ok.injEq] at h
      exact ⟨es, es', rfl, h.symm, heq⟩
  | null => simp [group_peers_by_country] at h
  | bool b => simp [group_peers_by_country] at h
  | num n => simp [group_peers_by_country] at h
  | str s => simp [group_peers_by_country] at h
  | arr ys => simp [group_peers_by_country] at h

/-- The entry list of the `grouped_by_country` dictionary of an output
record. -/
def gbcEntries (fs' : List (Json × Json)) : List (Json × Json) :=
  match alookup fs' gbcK with
  | some (.obj entries) => entries
  | _ => []

theorem gbcEntries_dictSet (fs : List (Json × Json)) (gs : List (Json × List Json)) :
    gbcEntries (dictSet fs gbcK (mkGrouped gs)) = gs.map fun g => (g.1, mkEntry g.2) := by
  rw [gbcEntries, alookup_dictSet_self, mkGrouped]

theorem processRecord_gbc {fs : List (Json × Json)} {v' : Json} {ls : List Json}
    (h : processRecord (Json.obj fs) = Except.ok v')
    (hl : alookup fs linksK = some (Json.arr ls)) :
    ∃ gs, groupLinks ls [] = Except.ok gs ∧
      v' = Json.obj (dictSet fs gbcK (mkGrouped (sortDescBy groupCount gs))) := by
  obtain ⟨fs2, xs, gs, heq, hit, hg, rfl⟩ := processRecord_ok h
  injection heq with heq
  subst heq
  rw [getDefault, hl, Option.getD_some, iterElems] at hit
  injection hit with hit
  subst hit
  exact ⟨gs, hg, rfl⟩

/-! ### C1: multiset completeness of the grouping -/

/-- Per-document statement of claim C1: for every AS record whose `links`
field is a JSON array, the concatenation of the `peers` lists across the
entries of the output record's `grouped_by_country` is a permutation
(multiset equality) of that array — no link dropped, duplicated, or
mutated. -/
def LinksPreserved (es es' : List (Json × Json)) : Prop :=
  List.Forall₂ (fun p q =>
    ∀ fs fs' ls, p.2 = Json.obj fs → q.2 = Json.obj fs' →
      alookup fs linksK = some (Json.arr ls) →
      (((gbcEntries fs').map fun e => entryPeers e.2).flatten).Perm ls) es es'

theorem record_spec {fs : List (Json × Json)} {v' : Json} {ls : List Json}
    (h : processRecord (Json.obj fs) = Except.ok v')
    (hl : alookup fs linksK = some (Json.arr ls)) :
    ∃ gs, groupLinks ls [] = Except.ok gs ∧
      v' = Json.obj (dictSet fs gbcK (mkGrouped (sortDescBy groupCount gs))) ∧
      (∀ c, contents gs c = ls.filter (fun l => decide (linkKeyJ l = c))) ∧
      gs.map Prod.fst = newKeys [] ls ∧
      (gs.map Prod.fst).Nodup ∧
      ((gs.map Prod.snd).flatten).Perm ls := by
  obtain ⟨gs, hg, hv'⟩ := processRecord_gbc h hl
  refine ⟨gs, hg, hv', ?_, ?_, ?_, ?_⟩
  · intro c
    have := groupLinks_contents c ls [] gs hg
    simpa [contents, alookup] using this
  · have := groupLinks_map_fst ls [] gs hg
    simpa using this
  · exact groupLinks_nodup ls [] gs (by simp) hg
  · have := groupLinks_flatten ls [] gs hg
    simpa using this

/-- C1: the `grouped_by_country` dictionaries of a successful run preserve
every record's `links` list as a multiset. -/
theorem c1_links_multiset_preserved {es : List (Json × Json)} {d' : Json}
    (h : group_peers_by_country (Json.obj es) = Except.ok d') :
    ∃ es', d' = Json.obj es' ∧ LinksPreserved es es' := by
  obtain ⟨es0, es', heq, rfl, hm⟩ := group_peers_ok h
  injection heq with heq
  subst heq
  refine ⟨es', rfl, ?_⟩
  refine (mapRecords_ok hm).imp ?_
  rintro p q ⟨hk, hp⟩
  intro fs fs' ls hpfs hqfs' hl
  rw [hpfs] at hp
  obtain ⟨gs, hg, hv', hcont, hkeys, hnd, hflat⟩ := record_spec hp hl
  rw [hqfs'] at hv'
  injection hv' with hv'
  subst hv'
  rw [gbcEntries_dictSet, List.map_map]
  have hmap : ((sortDescBy groupCount gs).map
      ((fun e : Json × Json => entryPeers e.2) ∘ (fun g : Json × List Json => (g.1, mkEntry g.2)))) =
      (sortDescBy groupCount gs).map Prod.snd := by
    apply List.map_congr_left
    intro g hgmem
    simp [Function.comp, entryPeers_mkEntry]
  rw [hmap]
  exact (List.Perm.flatten ((sortDescBy_perm groupCount gs).map Prod.snd)).trans hflat

/-! ### A concrete example run, used to witness the theorems -/

/-- A link with `peer_country` `"US"`. -/
def lUS1 : Json := .obj [(.str "peer_as", .str "7"), (pcK, .str "US")]

/-- A link with no `peer_country` key. -/
def lNoC : Json := .obj [(.str "peer_as", .str "8")]

/-- A link whose `peer_country` is JSON `null`. -/
def lNull : Json := .obj [(.str "peer_as", .str "9"), (pcK, .null)]

/-- A second link with `peer_country` `"US"`. -/
def lUS2 : Json := .obj [(.str "peer_as", .str "10"), (pcK, .str "US")]

/-- An AS record with four links. -/
def rec1 : List (Json × Json) :=
  [(.str "asn", .str "1"), (.str "as_info", .obj [(.str "name", .str "Alpha")]),
   (linksK, .arr [lUS1, lNoC, lNull, lUS2])]

/-- An AS record with no `links` field. -/
def rec2 : List (Json × Json) :=
  [(.str "asn", .str "2"), (.str "as_info", .obj [])]

/-- The example input document. -/
def exIn : List (Json × Json) := [(.str "1", .obj rec1), (.str "2", .obj rec2)]

/-- The entry list of the document produced from `exIn`. -/
def exOutEs : List (Json × Json) :=
  [(.str "1", .obj (rec1 ++ [(gbcK, .obj [
      (.str "US", mkEntry [lUS1, lUS2]),
      (.str "Unknown", mkEntry [lNoC]),
      (.null, mkEntry [lNull])])])),
   (.str "2", .obj (rec2 ++ [(gbcK, .obj [])]))]

theorem exIn_run :
    group_peers_by_country (Json.obj exIn) = Except.ok (Json.obj exOutEs) := by decide

/-- Witness for C1: the example run satisfies the multiset-preservation
property. -/
theorem c1_witness :
    ∃ es', Json.obj exOutEs = Json.obj es' ∧ LinksPreserved exIn es' :=
  c1_links_multiset_preserved exIn_run

/-! ### C2: ordering of the country groups -/

/-- The number of links of `ls` whose grouping key is `c`. -/
def multOf (ls : List Json) (c : Json) : Nat :=
  (ls.filter fun l => decide (linkKeyJ l = c)).length

/-- Per-document statement of claim C2: in every output record whose input
`links` field is a JSON array `ls`, the `grouped_by_country` entries are
ordered by descending `count`; for every count value, the countries
carrying it appear in the order in which each country was first
encountered while scanning `ls` (stable sort); and every country's `peers`
list is the subsequence of `ls` with that grouping key, preserving the
original relative order. -/
def GroupsOrdered (es es' : List (Json × Json)) : Prop :=
  List.Forall₂ (fun p q =>
    ∀ fs fs' ls, p.2 = Json.obj fs → q.2 = Json.obj fs' →
      alookup fs linksK = some (Json.arr ls) →
      (gbcEntries fs').Pairwise (fun a b => entryCount b.2 ≤ entryCount a.2) ∧
      (∀ n : Int,
        ((gbcEntries fs').filter fun e => decide (entryCount e.2 = n)).map Prod.fst =
          (newKeys [] ls).filter fun c => decide ((multOf ls c : Int) = n)) ∧
      (∀ e ∈ gbcEntries fs',
        entryPeers e.2 = ls.filter fun l => decide (linkKeyJ l = e.1))) es es'

theorem filter_map_fst {β : Type} (P : Json × β → Bool) (Q : Json → Bool) :
    ∀ gs : List (Json × β), (∀ g ∈ gs, P g = Q g.1) →
      (gs.filter P).map Prod.fst = (gs.map Prod.fst).filter Q
  | [], _ => rfl
  | g :: rest, h => by
    have hg := h g (List.mem_cons_self _ _)
    have ih := filter_map_fst P Q rest (fun x hx => h x (List.mem_cons_of_mem _ hx))
    simp only [List.filter_cons, List.map_cons, hg]
    by_cases hq : Q g.1 = true
    · simp [hq, ih]
    · simp [hq, ih]

/-- C2: the groups of a successful run are sorted by descending count, with
ties in first-encounter order, and each group lists its links in original
order. -/
theorem c2_groups_ordered {es : List (Json × Json)} {d' : Json}
    (h : group_peers_by_country (Json.obj es) = Except.ok d') :
    ∃ es', d' = Json.obj es' ∧ GroupsOrdered es es' := by
  obtain ⟨es0, es', heq, rfl, hm⟩ := group_peers_ok h
  injection heq with heq
  subst heq
  refine ⟨es', rfl, ?_⟩
  refine (mapRecords_ok hm).imp ?_
  rintro p q ⟨hk, hp⟩
  intro fs fs' ls hpfs hqfs' hl
  rw [hpfs] at hp
  obtain ⟨gs, hg, hv', hcont, hkeys, hnd, hflat⟩ := record_spec hp hl
  rw [hqfs'] at hv'
  injection hv' with hv'
  subst hv'
  rw [gbcEntries_dictSet]
  have hmemfilter : ∀ g ∈ gs, g.2 = ls.filter fun l => decide (linkKeyJ l = g.1) := by
    intro g hgmem
    have hl2 := alookup_eq_some_of_mem g.1 g.2 gs hnd hgmem
    have h2 := hcont g.1
    rw [contents, hl2] at h2
    simpa using h2
  refine ⟨?_, ?_, ?_⟩
  · rw [List.pairwise_map]
    refine (sortDescBy_pairwise groupCount gs).imp ?_
    intro a b hab
    show ((b.2.length : Int)) ≤ ((a.2.length : Int))
    exact_mod_cast hab
  · intro n
    rw [List.filter_map, List.map_map]
    have hcomp1 : ((fun e : Json × Json => decide (entryCount e.2 = n)) ∘
        fun g : Json × List Json => (g.1, mkEntry g.2)) =
        fun g : Json × List Json => decide ((g.2.length : Int) = n) := rfl
    have hcomp2 : (Prod.fst ∘ fun g : Json × List Json => (g.1, mkEntry g.2)) =
        (Prod.fst : Json × List Json → Json) := rfl
    rw [hcomp1, hcomp2]
    have hclass : ∀ a b : Json × List Json,
        (fun g : Json × List Json => decide ((g.2.length : Int) = n)) a = true →
        (fun g : Json × List Json => decide ((g.2.length : Int) = n)) b = true →
        groupCount a = groupCount b := by
      intro a b ha hb
      simp only [decide_eq_true_eq] at ha hb
      have hint : (a.2.length : Int) = (b.2.length : Int) := by rw [ha, hb]
      exact_mod_cast hint
    rw [filter_sortDescBy groupCount _ hclass gs]
    have hpt : ∀ g ∈ gs,
        decide ((g.2.length : Int) = n) = decide ((multOf ls g.1 : Int) = n) := by
      intro g hgmem
      have := hmemfilter g hgmem
      simp only [multOf, ← this]
    rw [filter_map_fst (fun g : Json × List Json => decide ((g.2.length : Int) = n))
      (fun c => decide ((multOf ls c : Int) = n)) gs hpt, hkeys]
  · intro e he
    obtain ⟨g, hgmem, rfl⟩ := List.mem_map.mp he
    have hmem2 : g ∈ gs := (sortDescBy_perm groupCount gs).mem_iff.mp hgmem
    show entryPeers (mkEntry g.2) = ls.filter fun l => decide (linkKeyJ l = g.1)
    rw [entryPeers_mkEntry]
    exact hmemfilter g hmem2

/-- Witness for C2 at the example document. -/
theorem c2_witness :
    ∃ es', Json.obj exOutEs = Json.obj es' ∧ GroupsOrdered exIn es' :=
  c2_groups_ordered exIn_run

/-! ### C3: count consistency -/

/-- Per-document statement of claim C3: every `grouped_by_country` entry of
every output record stores a `peers` array together with a `count` field
equal to its length. -/
def CountsConsistent (es' : List (Json × Json)) : Prop :=
  ∀ q ∈ es', ∀ fs', q.2 = Json.obj fs' →
    ∀ e ∈ gbcEntries fs', ∃ gf ps,
      e.2 = Json.obj gf ∧
      alookup gf peersK = some (Json.arr ps) ∧
      alookup gf countK = some (Json.num ps.length)

theorem forall₂_mem_right {α β : Type} {R : α → β → Prop} :
    ∀ {l₁ : List α} {l₂ : List β}, List.Forall₂ R l₁ l₂ →
      ∀ b ∈ l₂, ∃ a ∈ l₁, R a b := by
  intro l₁ l₂ h
  induction h with
  | nil => intro b hb; cases hb
  | cons hr _ ih =>
    intro b hb
    rcases List.mem_cons.mp hb with rfl | hb
    · exact ⟨_, List.mem_cons_self _ _, hr⟩
    · obtain ⟨a, ha, hr2⟩ := ih b hb
      exact ⟨a, List.mem_cons_of_mem _ ha, hr2⟩

/-- C3: in every record of a successful run, each country group's `count`
equals the length of its `peers` list. -/
theorem c3_count_consistency {es : List (Json × Json)} {d' : Json}
    (h : group_peers_by_country (Json.obj es) = Except.ok d') :
    ∃ es', d' = Json.obj es' ∧ CountsConsistent es' := by
  obtain ⟨es0, es', heq, rfl, hm⟩ := group_peers_ok h
  injection heq with heq
  subst heq
  refine ⟨es', rfl, ?_⟩
  intro q hq fs' hq2 e he
  obtain ⟨p, hpmem, hk, hp⟩ := forall₂_mem_right (mapRecords_ok hm) q hq
  obtain ⟨fs, xs, gs, hpfs, hit, hg, hq2'⟩ := processRecord_ok hp
  rw [hq2] at hq2'
  injection hq2' with hq2'
  subst hq2'
  rw [gbcEntries_dictSet] at he
  obtain ⟨g, hgmem, rfl⟩ := List.mem_map.mp he
  exact ⟨[(countK, Json.num g.2.length), (peersK, Json.arr g.2)], g.2, rfl, rfl, rfl⟩

/-- Witness for C3 at the example document. -/
theorem c3_witness :
    ∃ es', Json.obj exOutEs = Json.obj es' ∧ CountsConsistent es' :=
  c3_count_consistency exIn_run

/-! ### C4 and C10: where each link is placed -/

/-- The `peers` list of the group keyed `c` in an output record
(empty when the record has no such group). -/
def peersOfCountry (fs' : List (Json × Json)) (c : Json) : List Json :=
  match alookup (gbcEntries fs') c with
  | some gv => entryPeers gv
  | none => []

theorem peersOfCountry_eq {fs : List (Json × Json)} {gs : List (Json × List Json)}
    (hnd : (gs.map Prod.fst).Nodup) (c : Json) :
    peersOfCountry (dictSet fs gbcK (mkGrouped (sortDescBy groupCount gs))) c =
      contents gs c := by
  rw [peersOfCountry, gbcEntries_dictSet,
    alookup_map_pair mkEntry c (sortDescBy groupCount gs),
    ← alookup_perm c hnd (sortDescBy_perm groupCount gs).symm]
  cases h2 : alookup gs c <;> simp [h2, contents, entryPeers_mkEntry]

/-- Per-document statement of claim C4: every link of a record's `links`
array is placed in the `"Unknown"` group when its mapping has no
`peer_country` key, and otherwise in the group named by that key's
value. -/
def UnknownHandling (es es' : List (Json × Json)) : Prop :=
  List.Forall₂ (fun p q =>
    ∀ fs fs' ls, p.2 = Json.obj fs → q.2 = Json.obj fs' →
      alookup fs linksK = some (Json.arr ls) →
      ∀ lf, Json.obj lf ∈ ls →
        (alookup lf pcK = none → Json.obj lf ∈ peersOfCountry fs' unknownV) ∧
        (∀ v, alookup lf pcK = some v → Json.obj lf ∈ peersOfCountry fs' v)) es es'

/-- C4: links without `peer_country` go to `"Unknown"`, all others to the
group named by their `peer_country` value. -/
theorem c4_unknown_handling {es : List (Json × Json)} {d' : Json}
    (h : group_peers_by_country (Json.obj es) = Except.ok d') :
    ∃ es', d' = Json.obj es' ∧ UnknownHandling es es' := by
  obtain ⟨es0, es', heq, rfl, hm⟩ := group_peers_ok h
  injection heq with heq
  subst heq
  refine ⟨es', rfl, ?_⟩
  refine (mapRecords_ok hm).imp ?_
  rintro p q ⟨hk, hp⟩
  intro fs fs' ls hpfs hqfs' hl
  rw [hpfs] at hp
  obtain ⟨gs, hg, hv', hcont, hkeys, hnd, hflat⟩ := record_spec hp hl
  rw [hqfs'] at hv'
  injection hv' with hv'
  subst hv'
  intro lf hmem
  constructor
  · intro hnone
    rw [peersOfCountry_eq hnd, hcont]
    refine List.mem_filter.mpr ⟨hmem, ?_⟩
    simp [linkKeyJ, getDefault, hnone]
  · intro v hsome
    rw [peersOfCountry_eq hnd, hcont]
    refine List.mem_filter.mpr ⟨hmem, ?_⟩
    simp [linkKeyJ, getDefault, hsome]

/-- Witness for C4 at the example document. -/
theorem c4_witness :
    ∃ es', Json.obj exOutEs = Json.obj es' ∧ UnknownHandling exIn es' :=
  c4_unknown_handling exIn_run

/-- Per-document statement of claim C10: a link carrying a `peer_country`
key with any value — string or not, including `null` — is grouped under
that value itself, and it is not placed in the `"Unknown"` group unless
the value is the string `"Unknown"`. -/
def NonStringKeysUsed (es es' : List (Json × Json)) : Prop :=
  List.Forall₂ (fun p q =>
    ∀ fs fs' ls, p.2 = Json.obj fs → q.2 = Json.obj fs' →
      alookup fs linksK = some (Json.arr ls) →
      ∀ lf v, Json.obj lf ∈ ls → alookup lf pcK = some v →
        Json.obj lf ∈ peersOfCountry fs' v ∧
        (v ≠ unknownV → Json.obj lf ∉ peersOfCountry fs' unknownV)) es es'

/-- C10: a present `peer_country` value is used as the group key itself;
the `"Unknown"` substitution happens only for links lacking the key. -/
theorem c10_nonstring_keys {es : List (Json × Json)} {d' : Json}
    (h : group_peers_by_country (Json.obj es) = Except.ok d') :
    ∃ es', d' = Json.obj es' ∧ NonStringKeysUsed es es' := by
  obtain ⟨es0, es', heq, rfl, hm⟩ := group_peers_ok h
  injection heq with heq
  subst heq
  refine ⟨es', rfl, ?_⟩
  refine (mapRecords_ok hm).imp ?_
  rintro p q ⟨hk, hp⟩
  intro fs fs' ls hpfs hqfs' hl
  rw [hpfs] at hp
  obtain ⟨gs, hg, hv', hcont, hkeys, hnd, hflat⟩ := record_spec hp hl
  rw [hqfs'] at hv'
  injection hv' with hv'
  subst hv'
  intro lf v hmem hsome
  constructor
  · rw [peersOfCountry_eq hnd, hcont]
    refine List.mem_filter.mpr ⟨hmem, ?_⟩
    simp [linkKeyJ, getDefault, hsome]
  · intro hvne hin
    rw [peersOfCountry_eq hnd, hcont] at hin
    have := (List.mem_filter.mp hin).2
    simp only [linkKeyJ, getDefault, hsome, Option.getD_some, decide_eq_true_eq] at this
    exact hvne this

/-- Witness for C10 at the example document (whose third link has a `null`
`peer_country`). -/
theorem c10_witness :
    ∃ es', Json.obj exOutEs = Json.obj es' ∧ NonStringKeysUsed exIn es' :=
  c10_nonstring_keys exIn_run

/-! ### C5: frame — only `grouped_by_country` is touched -/

/-- Per-document statement of claim C5: the output has exactly the input's
records in order (same AS keys); in each record every field other than
`grouped_by_country` is unchanged, both in value and in relative order;
`grouped_by_country` is present in every output record; and it is the
empty mapping when the record had no `links` field. -/
def FramePreserved (es es' : List (Json × Json)) : Prop :=
  List.Forall₂ (fun p q =>
    p.1 = q.1 ∧
    ∀ fs, p.2 = Json.obj fs → ∃ fs',
      q.2 = Json.obj fs' ∧
      (∀ k, k ≠ gbcK → alookup fs' k = alookup fs k) ∧
      removeKey fs' gbcK = removeKey fs gbcK ∧
      (∃ g, alookup fs' gbcK = some g ∧
        (alookup fs linksK = none → g = Json.obj []))) es es'

/-- C5: ASes are neither added nor removed, every field except
`grouped_by_country` is passed through untouched, and a record without
`links` receives an empty grouping. -/
theorem c5_frame {es : List (Json × Json)} {d' : Json}
    (h : group_peers_by_country (Json.obj es) = Except.ok d') :
    ∃ es', d' = Json.obj es' ∧ FramePreserved es es' := by
  obtain ⟨es0, es', heq, rfl, hm⟩ := group_peers_ok h
  injection heq with heq
  subst heq
  refine ⟨es', rfl, ?_⟩
  refine (mapRecords_ok hm).imp ?_
  rintro p q ⟨hk, hp⟩
  refine ⟨hk, ?_⟩
  intro fs hpfs
  rw [hpfs] at hp
  obtain ⟨fs0, xs, gs, heq0, hit, hg, hv'⟩ := processRecord_ok hp
  injection heq0 with heq0
  subst heq0
  refine ⟨_, hv', ?_, ?_, ?_⟩
  · intro k hkne
    exact alookup_dictSet_ne gbcK _ k hkne fs
  · exact removeKey_dictSet gbcK _ fs
  · refine ⟨_, alookup_dictSet_self gbcK _ fs, ?_⟩
    intro hnone
    rw [getDefault, hnone, Option.getD_none, iterElems] at hit
    injection hit with hit
    rw [← hit] at hg
    simp only [groupLinks, Except.ok.injEq] at hg
    rw [← hg]
    rfl

/-- Witness for C5 at the example document (whose second record has no
`links` field). -/
theorem c5_witness :
    ∃ es', Json.obj exOutEs = Json.obj es' ∧ FramePreserved exIn es' :=
  c5_frame exIn_run

/-! ### C6: idempotence -/

theorem processRecord_idem {v v' : Json} (h : processRecord v = Except.ok v') :
    processRecord v' = Except.ok v' := by
  obtain ⟨fs, xs, gs, rfl, hit, hg, rfl⟩ := processRecord_ok h
  have hne : linksK ≠ gbcK := by decide
  simp only [processRecord,
    getDefault_dictSet_ne fs gbcK (mkGrouped (sortDescBy groupCount gs)) linksK
      (Json.arr []) hne, hit, hg, dictSet_dictSet_self]

theorem mapRecords_idem :
    ∀ {es es' : List (Json × Json)}, mapRecords es = Except.ok es' →
      mapRecords es' = Except.ok es' := by
  intro es
  induction es with
  | nil =>
    intro es' h
    simp only [mapRecords, Except.ok.injEq] at h
    subst h
    rfl
  | cons p rest ih =>
    intro es' h
    obtain ⟨k, v⟩ := p
    simp only [mapRecords] at h
    split at h
    next e heq => exact absurd h (by simp)
    next v' heq =>
      split at h
      next e heq2 => exact absurd h (by simp)
      next rest' heq2 =>
        simp only [Except.ok.injEq] at h
        subst h
        simp only [mapRecords, processRecord_idem heq, ih heq2]

/-- C6: applying `group_peers_by_country` to its own output returns that
output unchanged — the `grouped_by_country` field is regenerated
identically from `links`. -/
theorem c6_idempotent {d d' : Json} (h : group_peers_by_country d = Except.ok d') :
    group_peers_by_country d' = Except.ok d' := by
  obtain ⟨es, es', rfl, rfl, hm⟩ := group_peers_ok h
  simp only [group_peers_by_country, mapRecords_idem hm]

/-- Witness for C6: re-running the transform on the example output is the
identity. -/
theorem c6_witness :
    group_peers_by_country (Json.obj exOutEs) = Except.ok (Json.obj exOutEs) :=
  c6_idempotent exIn_run

/-! ### C7: correctness of the statistics pass -/

/-- Well-formedness of one country group for the statistics pass: a
dictionary carrying a numeric `count`. -/
def WFGroup : Json → Bool
  | .obj gf =>
    match alookup gf countK with
    | some (.num _) => true
    | _ => false
  | _ => false

/-- A record the statistics pass accepts: a dictionary whose
`grouped_by_country` — when present — is a dictionary of well-formed
groups.  A record without `grouped_by_country` is fine. -/
def WFStatsRecord : Json → Bool
  | .obj fs =>
    match alookup fs gbcK with
    | none => true
    | some (.obj groups) => groups.all fun e => WFGroup e.2
    | some _ => false
  | _ => false

/-- A document the statistics pass accepts. -/
def WFStatsDoc : Json → Bool
  | .obj es => es.all fun p => WFStatsRecord p.2
  | _ => false

/-- The country names of one record's `grouped_by_country`, in stored
order (empty for a record without the field). -/
def recordCountries : Json → List Json
  | .obj fs =>
    match getDefault fs gbcK (.obj []) with
    | .obj groups => groups.map Prod.fst
    | _ => []
  | _ => []

/-- Every country-name occurrence in the document, in scanning order. -/
def allCountries : Json → List Json
  | .obj es => (es.map fun p => recordCountries p.2).flatten
  | _ => []

/-- Reference definition following the spec's words: the `count` total of
country `c` within a single AS record. -/
def recordAggregate (v : Json) (c : Json) : Int :=
  match v with
  | .obj fs =>
    match getDefault fs gbcK (.obj []) with
    | .obj groups =>
      ((groups.filter fun e => decide (e.1 = c)).map fun e => entryCount e.2).sum
    | _ => 0
  | _ => 0

/-- Reference definition following the spec's words: "for each country,
the sum of `count` across all ASes that have a group for it". -/
def specCountryAggregate (d : Json) (c : Json) : Int :=
  match d with
  | .obj es => (es.map fun p => recordAggregate p.2 c).sum
  | _ => 0

/-- The aggregate stored for country `c` (a `defaultdict(int)` read). -/
def lookup0 (counts : List (Json × Int)) (c : Json) : Int :=
  (alookup counts c).getD 0

theorem lookup0_addCount (c c' : Json) (n : Int) :
    ∀ counts, lookup0 (addCount counts c n) c' =
      lookup0 counts c' + if c' = c then n else 0
  | [] => by
    by_cases h : c' = c
    · subst h; simp [addCount, lookup0, alookup]
    · simp [addCount, lookup0, alookup, h, Ne.symm h]
  | (k, m) :: rest => by
    by_cases h : k = c
    · subst h
      by_cases h2 : k = c'
      · subst h2; simp [addCount, lookup0, alookup]
      · simp only [addCount, if_pos rfl, lookup0, alookup, if_neg h2]
        simp [fun he : c' = k => h2 he.symm]
        exact fun he => absurd he.symm h2
    · by_cases h2 : k = c'
      · subst h2
        simp [addCount, lookup0, alookup, h, fun he : k = c => h he]
      · have IH := lookup0_addCount c c' n rest
        simp only [lookup0] at IH
        simp [addCount, lookup0, alookup, h, h2, IH]

theorem map_fst_addCount (c : Json) (n : Int) :
    ∀ counts, (addCount counts c n).map Prod.fst = addCountry (counts.map Prod.fst) c
  | [] => by simp [addCount, addCountry]
  | (k, m) :: rest => by
    by_cases h : k = c
    · subst h; simp [addCount, addCountry]
    · simp only [addCount, if_neg h, List.map_cons, map_fst_addCount c n rest, addCountry]
      by_cases hm : c ∈ rest.map Prod.fst
      · simp [hm, Ne.symm h]
      · simp [hm, Ne.symm h]

theorem mem_addCountry {seen : List Json} {c x : Json} :
    x ∈ addCountry seen c ↔ x ∈ seen ∨ x = c := by
  rw [addCountry]
  by_cases h : c ∈ seen
  · simp only [if_pos h]
    exact ⟨Or.inl, fun hx => hx.elim id fun he => he ▸ h⟩
  · simp [if_neg h]

theorem nodup_addCountry {seen : List Json} (h : seen.Nodup) (c : Json) :
    (addCountry seen c).Nodup := by
  rw [addCountry]
  by_cases hm : c ∈ seen
  · simp [hm, h]
  · simp only [if_neg hm]
    exact List.Nodup.append h (List.nodup_singleton c)
      fun a ha hb => hm ((List.mem_singleton.mp hb) ▸ ha)

theorem mem_foldl_addCountry :
    ∀ (xs : List Json) (s : List Json) (x : Json),
      x ∈ xs.foldl addCountry s ↔ x ∈ s ∨ x ∈ xs
  | [], s, x => by simp
  | c :: rest, s, x => by
    rw [List.foldl_cons, mem_foldl_addCountry rest _ x, mem_addCountry]
    simp [or_assoc]

theorem nodup_foldl_addCountry :
    ∀ (xs : List Json) (seen : List Json), seen.Nodup → (xs.foldl addCountry seen).Nodup
  | [], _, h => h
  | c :: rest, _, h => nodup_foldl_addCountry rest _ (nodup_addCountry h c)

theorem WFStatsRecord_destruct {v : Json} (h : WFStatsRecord v = true) :
    ∃ fs groups, v = Json.obj fs ∧
      getDefault fs gbcK (Json.obj []) = Json.obj groups ∧
      (groups.all fun e => WFGroup e.2) = true := by
  cases v with
  | obj fs =>
    cases halk : alookup fs gbcK with
    | none => exact ⟨fs, [], rfl, by simp [getDefault, halk], rfl⟩
    | some g =>
      cases g with
      | obj groups =>
        refine ⟨fs, groups, rfl, by simp [getDefault, halk], ?_⟩
        simpa [WFStatsRecord, halk] using h
      | null => simp [WFStatsRecord, halk] at h
      | bool b => simp [WFStatsRecord, halk] at h
      | num n => simp [WFStatsRecord, halk] at h
      | str st => simp [WFStatsRecord, halk] at h
      | arr ys => simp [WFStatsRecord, halk] at h
  | null => simp [WFStatsRecord] at h
  | bool b => simp [WFStatsRecord] at h
  | num n => simp [WFStatsRecord] at h
  | str st => simp [WFStatsRecord] at h
  | arr ys => simp [WFStatsRecord] at h

theorem statsGroups_spec :
    ∀ (groups : List (Json × Json)) (seen : List Json) (counts : List (Json × Int)),
      (groups.all fun e => WFGroup e.2) = true →
      ∃ seen' counts', statsGroups groups seen counts = Except.ok (seen', counts') ∧
        (∀ c, lookup0 counts' c = lookup0 counts c +
          ((groups.filter fun e => decide (e.1 = c)).map fun e => entryCount e.2).sum) ∧
        counts'.map Prod.fst = (groups.map Prod.fst).foldl addCountry (counts.map Prod.fst) ∧
        seen' = (groups.map Prod.fst).foldl addCountry seen := by
  intro groups
  induction groups with
  | nil =>
    intro seen counts _
    exact ⟨seen, counts, rfl, by simp, by simp, by simp⟩
  | cons e rest ih =>
    intro seen counts hwf
    obtain ⟨c0, g0⟩ := e
    rw [List.all_cons, Bool.and_eq_true] at hwf
    obtain ⟨hg0, hrest⟩ := hwf
    cases g0 with
    | obj gf =>
      cases hcnt : alookup gf countK with
      | none => simp [WFGroup, hcnt] at hg0
      | some cv =>
        cases cv with
        | num n =>
          obtain ⟨seen', counts', hrun, hsum, hkeys, hseen⟩ :=
            ih (addCountry seen c0) (addCount counts c0 n) hrest
          refine ⟨seen', counts', ?_, ?_, ?_, ?_⟩
          · simp only [statsGroups, hcnt]
            exact hrun
          · intro c
            rw [hsum c, lookup0_addCount, List.filter_cons]
            by_cases hc : c0 = c
            · subst hc
              have hec : entryCount (Json.obj gf) = n := by simp [entryCount, hcnt]
              simp [hec, add_assoc]
            · have hc2 : ¬ c = c0 := fun he => hc he.symm
              simp [hc, hc2]
          · rw [hkeys, map_fst_addCount]
            simp [List.foldl_cons]
          · rw [hseen]
            simp [List.foldl_cons]
        | null => simp [WFGroup, hcnt] at hg0
        | bool b => simp [WFGroup, hcnt] at hg0
        | str st => simp [WFGroup, hcnt] at hg0
        | arr ys => simp [WFGroup, hcnt] at hg0
        | obj gf2 => simp [WFGroup, hcnt] at hg0
    | null => simp [WFGroup] at hg0
    | bool b => simp [WFGroup] at hg0
    | num n => simp [WFGroup] at hg0
    | str st => simp [WFGroup] at hg0
    | arr ys => simp [WFGroup] at hg0

theorem statsRecords_spec :
    ∀ (vs : List Json) (seen : List Json) (counts : List (Json × Int)),
      vs.all WFStatsRecord = true →
      ∃ seen' counts', statsRecords vs seen counts = Except.ok (seen', counts') ∧
        (∀ c, lookup0 counts' c = lookup0 counts c +
          (vs.map fun v => recordAggregate v c).sum) ∧
        counts'.map Prod.fst =
          ((vs.map recordCountries).flatten).foldl addCountry (counts.map Prod.fst) ∧
        seen' = ((vs.map recordCountries).flatten).foldl addCountry seen := by
  intro vs
  induction vs with
  | nil =>
    intro seen counts _
    exact ⟨seen, counts, rfl, by simp, by simp, by simp⟩
  | cons v rest ih =>
    intro seen counts hwf
    rw [List.all_cons, Bool.and_eq_true] at hwf
    obtain ⟨hv, hrest⟩ := hwf
    obtain ⟨fs, groups, rfl, hget, hgwf⟩ := WFStatsRecord_destruct hv
    obtain ⟨seen1, counts1, hrun1, hsum1, hkeys1, hseen1⟩ :=
      statsGroups_spec groups seen counts hgwf
    obtain ⟨seen', counts', hrun, hsum, hkeys, hseen⟩ := ih seen1 counts1 hrest
    have hrc : recordCountries (Json.obj fs) = groups.map Prod.fst := by
      simp [recordCountries, hget]
    refine ⟨seen', counts', ?_, ?_, ?_, ?_⟩
    · simp only [statsRecords, hget, hrun1]
      exact hrun
    · intro c
      rw [hsum c, hsum1 c, List.map_cons, List.sum_cons]
      have hragg : recordAggregate (Json.obj fs) c =
          ((groups.filter fun e => decide (e.1 = c)).map fun e => entryCount e.2).sum := by
        simp [recordAggregate, hget]
      rw [hragg]
      ring
    · rw [hkeys, hkeys1, List.map_cons, List.flatten_cons, List.foldl_append, hrc]
    · rw [hseen, hseen1, List.map_cons, List.flatten_cons, List.foldl_append, hrc]

theorem WFStatsDoc_all {es : List (Json × Json)}
    (h : WFStatsDoc (Json.obj es) = true) :
    (es.map Prod.snd).all WFStatsRecord = true := by
  simp only [WFStatsDoc, List.all_eq_true] at h
  rw [List.all_eq_true]
  intro v hv
  obtain ⟨p, hpmem, rfl⟩ := List.mem_map.mp hv
  exact h p hpmem

/-- Per-document statement of claim C7: on a well-formed augmented
document the statistics pass succeeds; the total AS count is the number of
top-level entries; the recorded country collection has no duplicates and
holds exactly the countries appearing in some record's
`grouped_by_country`; and the aggregate recorded for each country is the
sum of that country's `count` over all records. -/
def StatisticsCorrect (es : List (Json × Json)) (s : Stats) : Prop :=
  s.total_ases = es.length ∧
  s.total_countries.Nodup ∧
  (∀ c, c ∈ s.total_countries ↔ c ∈ allCountries (Json.obj es)) ∧
  (∀ c, lookup0 s.country_peer_counts c = specCountryAggregate (Json.obj es) c)

/-- C7: the statistics computed by `generate_statistics` agree with the
specification's description, and records lacking `grouped_by_country`
contribute nothing without causing a failure. -/
theorem c7_statistics {es : List (Json × Json)}
    (h : WFStatsDoc (Json.obj es) = true) :
    ∃ s, generate_statistics (Json.obj es) = Except.ok s ∧ StatisticsCorrect es s := by
  obtain ⟨seen', counts', hrun, hsum, hkeys, hseen⟩ :=
    statsRecords_spec (es.map Prod.snd) [] [] (WFStatsDoc_all h)
  have hac : ((es.map Prod.snd).map recordCountries).flatten = allCountries (Json.obj es) := by
    rw [List.map_map]
    rfl
  refine ⟨⟨es.length, seen', counts', (sortDescBy countVal counts').take 15⟩,
    ?_, rfl, ?_, ?_, ?_⟩
  · simp only [generate_statistics, hrun]
  · rw [hseen]
    exact nodup_foldl_addCountry _ [] List.nodup_nil
  · intro c
    rw [hseen, mem_foldl_addCountry, hac]
    simp
  · intro c
    rw [hsum c]
    have h0 : lookup0 [] c = 0 := rfl
    rw [h0, zero_add, List.map_map]
    rfl

/-- Witness for C7 on the example output document. -/
theorem c7_witness :
    ∃ s, generate_statistics (Json.obj exOutEs) = Except.ok s ∧
      StatisticsCorrect exOutEs s :=
  c7_statistics (by decide)

/-! ### C8: the top-15 list -/

theorem filter_take_isPrefixOf_filter {α : Type} (p : α → Bool) :
    ∀ (n : Nat) (l : List α), ((l.take n).filter p) <+: (l.filter p)
  | 0, l => by simp
  | n + 1, [] => by simp
  | n + 1, x :: xs => by
    rw [List.take_succ_cons, List.filter_cons, List.filter_cons]
    by_cases hx : p x = true
    · rw [if_pos hx, if_pos hx, List.cons_prefix_cons]
      exact ⟨rfl, filter_take_isPrefixOf_filter p n xs⟩
    · rw [if_neg hx, if_neg hx]
      exact filter_take_isPrefixOf_filter p n xs

/-- A one-record document whose `grouped_by_country` lists country `"B"`
before `"A"`, both with count 1. -/
def c8es : List (Json × Json) :=
  [(.str "1", .obj [(gbcK, .obj [
      (.str "B", .obj [(countK, .num 1)]),
      (.str "A", .obj [(countK, .num 1)])])])]

/-- Counterexample to claim C8 as stated: on `c8es`, countries `"A"` and
`"B"` have equal aggregate counts and `"A"` precedes `"B"` in ascending
name order, yet the computed top-15 list places `"B"` first — Python's
stable sort keeps equal-count countries in first-seen (insertion) order,
so ties are not broken by country name ascending. -/
theorem c8_counterexample :
    generate_statistics (Json.obj c8es) =
      Except.ok ⟨1, [Json.str "B", Json.str "A"],
        [(Json.str "B", 1), (Json.str "A", 1)],
        [(Json.str "B", 1), (Json.str "A", 1)]⟩ ∧
    "A".data < "B".data ∧
    [(Json.str "B", (1 : Int)), (Json.str "A", 1)] ≠
      [(Json.str "A", 1), (Json.str "B", 1)] := by
  refine ⟨by decide, by decide, by decide⟩

/-- Statement of the amended claim C8 on a statistics result: the top list
holds `min 15 n` entries for `n` aggregated countries, is ordered by
descending aggregate, every aggregate outside it is no larger than any
aggregate inside it, and for every aggregate value the countries carrying
it appear as a prefix of their first-seen-order listing (insertion order of
the aggregation dictionary), not in name order. -/
def Top15Correct (s : Stats) : Prop :=
  s.top_countries.length = min s.country_peer_counts.length 15 ∧
  s.top_countries.Pairwise (fun a b => b.2 ≤ a.2) ∧
  (∀ p ∈ s.top_countries, ∀ q ∈ s.country_peer_counts,
    q.1 ∉ s.top_countries.map Prod.fst → q.2 ≤ p.2) ∧
  (∀ n : Int, (s.top_countries.filter fun p => decide (p.2 = n)) <+:
    (s.country_peer_counts.filter fun p => decide (p.2 = n)))

/-- Amended C8: the top-15 list holds the countries with the largest
aggregates in descending order, with ties kept in the order in which each
country was first encountered while scanning the document. -/
theorem c8_amended_top15 {es : List (Json × Json)}
    (h : WFStatsDoc (Json.obj es) = true) :
    ∃ s, generate_statistics (Json.obj es) = Except.ok s ∧
      s.country_peer_counts.map Prod.fst =
        (allCountries (Json.obj es)).foldl addCountry [] ∧
      Top15Correct s := by
  obtain ⟨seen', counts', hrun, hsum, hkeys, hseen⟩ :=
    statsRecords_spec (es.map Prod.snd) [] [] (WFStatsDoc_all h)
  have hac : ((es.map Prod.snd).map recordCountries).flatten = allCountries (Json.obj es) := by
    rw [List.map_map]
    rfl
  refine ⟨⟨es.length, seen', counts', (sortDescBy countVal counts').take 15⟩,
    ?_, ?_, ?_, ?_, ?_, ?_⟩
  · simp only [generate_statistics, hrun]
  · rw [hkeys, hac]
    rfl
  · rw [List.length_take, (sortDescBy_perm countVal counts').length_eq, Nat.min_comm]
  · exact List.Pairwise.sublist (List.take_sublist _ _) (sortDescBy_pairwise countVal counts')
  · intro p hp q hq hqnot
    have hqs : q ∈ sortDescBy countVal counts' :=
      (sortDescBy_perm countVal counts').mem_iff.mpr hq
    rw [← List.take_append_drop 15 (sortDescBy countVal counts')] at hqs
    rcases List.mem_append.mp hqs with hqt | hqd
    · exact absurd (List.mem_map.mpr ⟨q, hqt, rfl⟩) hqnot
    · have hpw := sortDescBy_pairwise countVal counts'
      rw [← List.take_append_drop 15 (sortDescBy countVal counts')] at hpw
      exact (List.pairwise_append.mp hpw).2.2 p hp q hqd
  · intro n
    have hclass : ∀ a b : Json × Int,
        (fun p : Json × Int => decide (p.2 = n)) a = true →
        (fun p : Json × Int => decide (p.2 = n)) b = true → countVal a = countVal b := by
      intro a b ha hb
      simp only [decide_eq_true_eq] at ha hb
      rw [countVal, countVal, ha, hb]
    have hpre := filter_take_isPrefixOf_filter (fun p : Json × Int => decide (p.2 = n)) 15
      (sortDescBy countVal counts')
    rwa [filter_sortDescBy countVal _ hclass counts'] at hpre

/-- Witness for the amended C8 on the counterexample document. -/
theorem c8_witness :
    ∃ s, generate_statistics (Json.obj c8es) = Except.ok s ∧
      s.country_peer_counts.map Prod.fst =
        (allCountries (Json.obj c8es)).foldl addCountry [] ∧
      Top15Correct s :=
  c8_amended_top15 (by decide)

/-! ### C9: error behaviour on malformed input -/

/-- Whether a value is a JSON string. -/
def Json.isStr : Json → Bool
  | .str _ => true
  | _ => false

/-- The spec's notion of a well-shaped link: a mapping whose
`peer_country`, when present, is a string. -/
def specLink : Json → Bool
  | .obj lf =>
    match alookup lf pcK with
    | none => true
    | some (.str _) => true
    | some _ => false
  | _ => false

/-- The spec's notion of an AS record: a mapping whose `links` field, when
present, is an array of links. -/
def specASRecord : Json → Bool
  | .obj fs =>
    match alookup fs linksK with
    | none => true
    | some (.arr ls) => ls.all specLink
    | some _ => false
  | _ => false

/-- The spec's notion of a well-shaped input: a mapping from AS identifier
strings to AS records. -/
def specDocument : Json → Bool
  | .obj es => es.all fun p => p.1.isStr && specASRecord p.2
  | _ => false

/-- A record whose `links` field is a string — not an AS-record shape. -/
def c9rec : List (Json × Json) :=
  [(.str "asn", .str "9"), (.str "as_info", .obj []), (linksK, .str "")]

/-- Counterexample to claim C9 as stated: this document is not a mapping of
AS records (its only record's `links` is a string, not an array of links),
yet `group_peers_by_country` raises nothing at all — Python iterates the
empty string, finds no links, and the record is accepted and given an
empty grouping.  The code also defines no `SchemaError`, so the claimed
equivalence "fails with `SchemaError` iff the input is not a mapping of AS
records" is false. -/
theorem c9_counterexample :
    specDocument (Json.obj [(Json.str "9", Json.obj c9rec)]) = false ∧
    group_peers_by_country (Json.obj [(Json.str "9", Json.obj c9rec)]) =
      Except.ok (Json.obj [(Json.str "9", Json.obj (c9rec ++ [(gbcK, Json.obj [])]))]) :=
  ⟨by decide, by decide⟩

/-- Amended C9: when the top-level input is not a dictionary the transform
fails immediately — before touching any record — with Python's
`AttributeError` (the code defines no `SchemaError` of its own); and every
run that returns a document started from a dictionary.  Malformed records
inside a dictionary are not rejected up front: they either fail during
per-AS processing or may be accepted silently. -/
theorem c9_amended_failfast (d : Json) :
    ((∀ es, d ≠ Json.obj es) →
      group_peers_by_country d = Except.error PyError.attributeError) ∧
    (∀ d', group_peers_by_country d = Except.ok d' → ∃ es, d = Json.obj es) := by
  constructor
  · intro hno
    cases d with
    | obj es => exact absurd rfl (hno es)
    | null => rfl
    | bool b => rfl
    | num n => rfl
    | str st => rfl
    | arr ys => rfl
  · intro d' h
    obtain ⟨es, es', heq, _, _⟩ := group_peers_ok h
    exact ⟨es, heq⟩

/-- Witness for the amended C9: a number at top level is rejected
outright. -/
theorem c9_witness :
    group_peers_by_country (Json.num 3) = Except.error PyError.attributeError :=
  (c9_amended_failfast (Json.num 3)).1 fun _ he => Json.noConfusion he

/-- The worked example of the specification: two `"Chile"` links and one
`"Peru"` link produce the groups `Chile` (count 2) before `Peru`
(count 1), in that order. -/
theorem spec_example_chile_peru :
    processRecord (.obj [(.str "asn", .str "100"),
      (linksK, .arr [.obj [(pcK, .str "Chile")], .obj [(pcK, .str "Peru")],
        .obj [(pcK, .str "Chile")]])]) =
    .ok (.obj [(.str "asn", .str "100"),
      (linksK, .arr [.obj [(pcK, .str "Chile")], .obj [(pcK, .str "Peru")],
        .obj [(pcK, .str "Chile")]]),
      (gbcK, .obj [
        (.str "Chile", .obj [(countK, .num 2),
          (peersK, .arr [.obj [(pcK, .str "Chile")], .obj [(pcK, .str "Chile")]])]),
        (.str "Peru", .obj [(countK, .num 1),
          (peersK, .arr [.obj [(pcK, .str "Peru")]])])])]) := by decide
